import Mathlib

/-!
Verification of the signed countdown-handoff core of `streamlit_app.py`.

The development shallowly embeds the relevant parts of the program:
byte strings are `List Nat` (each element one byte / one ASCII character
code), Python integers are `Int`, Unix timestamps are `Int`, and fallible
operations return `Option` or `Except`.  The embedded functions keep the
source names where Lean allows it (`sign_token`, `parse_seconds`,
`verify_and_load`, ...).
-/

/-! ## Base64url (Python `base64.urlsafe_b64encode` / `urlsafe_b64decode`) -/

/-- The base64url alphabet as a function from a 6-bit index to the ASCII
code of the corresponding character (`A-Z`, `a-z`, `0-9`, `-`, `_`). -/
def encChar (i : Nat) : Nat :=
  if i < 26 then 65 + i
  else if i < 52 then 97 + (i - 26)
  else if i < 62 then 48 + (i - 52)
  else if i = 62 then 45
  else 95

/-- Character acceptance of `base64.urlsafe_b64decode`: the function
only translates `-` to `+` and `_` to `/` before handing the string to
the standard decoder, so both the url-safe characters 45/95 and the
standard-alphabet characters 43/47 decode to the indices 62/63;
everything outside this accepted set is `none`. -/
def decChar (c : Nat) : Option Nat :=
  if 65 ≤ c ∧ c ≤ 90 then some (c - 65)
  else if 97 ≤ c ∧ c ≤ 122 then some (c - 97 + 26)
  else if 48 ≤ c ∧ c ≤ 57 then some (c - 48 + 52)
  else if c = 45 ∨ c = 43 then some 62
  else if c = 95 ∨ c = 47 then some 63
  else none

/-- Base64url encoding with `=` padding, as `base64.urlsafe_b64encode`
produces it (61 is the ASCII code of `=`). -/
def b64EncodePadded : List Nat → List Nat
  | [] => []
  | [a] => [encChar (a / 4), encChar (a % 4 * 16), 61, 61]
  | [a, b] => [encChar (a / 4), encChar (a % 4 * 16 + b / 16), encChar (b % 16 * 4), 61]
  | a :: b :: c :: rest =>
      encChar (a / 4) :: encChar (a % 4 * 16 + b / 16) ::
      encChar (b % 16 * 4 + c / 64) :: encChar (c % 64) :: b64EncodePadded rest

/-- Unpadded base64url encoding (the padded form with the trailing `=`
characters simply not emitted). -/
def b64Encode : List Nat → List Nat
  | [] => []
  | [a] => [encChar (a / 4), encChar (a % 4 * 16)]
  | [a, b] => [encChar (a / 4), encChar (a % 4 * 16 + b / 16), encChar (b % 16 * 4)]
  | a :: b :: c :: rest =>
      encChar (a / 4) :: encChar (a % 4 * 16 + b / 16) ::
      encChar (b % 16 * 4 + c / 64) :: encChar (c % 64) :: b64Encode rest

/-- Base64url decoding of an unpadded string.  The decoder snippet in the
source re-adds the missing padding and calls `base64.urlsafe_b64decode`;
on strings whose characters all lie in the accepted set of `decChar`
that is exactly groups of four characters to three bytes, a final group
of three characters to two bytes and a final group of two characters to
one byte, with the unused low bits of the final character ignored
(CPython does not validate them in its default non-strict mode).
Inputs containing a character outside the accepted set, or with a final
group of one character, fail (`none`); CPython instead discards
unrecognized characters before decoding and then applies its padding
check, a leniency this model does not reproduce — the tamper theorem
below is therefore hypothesis-guarded on the model decode succeeding,
and the characters the model does accept decode exactly as CPython
decodes them. -/
def b64Decode : List Nat → Option (List Nat)
  | [] => some []
  | [_] => none
  | [c1, c2] => do
      let d1 ← decChar c1
      let d2 ← decChar c2
      pure [d1 * 4 + d2 / 16]
  | [c1, c2, c3] => do
      let d1 ← decChar c1
      let d2 ← decChar c2
      let d3 ← decChar c3
      pure [d1 * 4 + d2 / 16, d2 % 16 * 16 + d3 / 4]
  | c1 :: c2 :: c3 :: c4 :: rest => do
      let d1 ← decChar c1
      let d2 ← decChar c2
      let d3 ← decChar c3
      let d4 ← decChar c4
      let tl ← b64Decode rest
      pure ((d1 * 4 + d2 / 16) :: (d2 % 16 * 16 + d3 / 4) :: (d3 % 4 * 64 + d4) :: tl)

/-- Drop a trailing run of `=` characters (ASCII 61): Python's
`.rstrip("=")` as applied to base64 output. -/
def dropPad : List Nat → List Nat
  | [] => []
  | c :: rest =>
      match dropPad rest with
      | [] => if c = 61 then [] else [c]
      | r :: rs => c :: r :: rs

/-- The source's `_b64url`: padded base64url encoding with the `=`
padding stripped. -/
def b64url (data : List Nat) : List Nat := dropPad (b64EncodePadded data)

/-! ## Splitting a byte string on a separator (Python `str.split`) -/

/-- Split a byte string at every occurrence of the separator byte,
mirroring Python `str.split` with a one-character separator. -/
def splitB (sep : Nat) : List Nat → List (List Nat)
  | [] => [[]]
  | b :: rest =>
      match splitB sep rest with
      | [] => [[]]
      | r :: rs => if b = sep then [] :: r :: rs else (b :: r) :: rs

/-! ## SHA-256 and HMAC-SHA256 (`hashlib.sha256`, `hmac.new`) -/

/-- 2 to the 32nd power, the modulus of SHA-256 word arithmetic. -/
def M32 : Nat := 4294967296

/-- Rotate a word right by `n` bit positions, reduced back into 32
bits. -/
def rotr (n w : Nat) : Nat :=
  ((w >>> n) ||| (w <<< (32 - n))) % M32

/-- SHA-256 Ch function (the complement is an XOR against the all-ones
32-bit word). -/
def shaCh (x y z : Nat) : Nat := ((x &&& y) ^^^ ((x ^^^ 4294967295) &&& z)) % M32

/-- SHA-256 Maj function. -/
def shaMaj (x y z : Nat) : Nat := ((x &&& y) ^^^ (x &&& z) ^^^ (y &&& z)) % M32

/-- SHA-256 big Sigma0. -/
def bSig0 (x : Nat) : Nat := (rotr 2 x ^^^ rotr 13 x ^^^ rotr 22 x) % M32

/-- SHA-256 big Sigma1. -/
def bSig1 (x : Nat) : Nat := (rotr 6 x ^^^ rotr 11 x ^^^ rotr 25 x) % M32

/-- SHA-256 small sigma0. -/
def sSig0 (x : Nat) : Nat := (rotr 7 x ^^^ rotr 18 x ^^^ (x >>> 3)) % M32

/-- SHA-256 small sigma1. -/
def sSig1 (x : Nat) : Nat := (rotr 17 x ^^^ rotr 19 x ^^^ (x >>> 10)) % M32

/-- The 64 SHA-256 round constants (written in decimal). -/
def shaK : List Nat :=
  [1116352408, 1899447441, 3049323471, 3921009573, 961987163, 1508970993,
   2453635748, 2870763221, 3624381080, 310598401, 607225278, 1426881987,
   1925078388, 2162078206, 2614888103, 3248222580, 3835390401, 4022224774,
   264347078, 604807628, 770255983, 1249150122, 1555081692, 1996064986,
   2554220882, 2821834349, 2952996808, 3210313671, 3336571891, 3584528711,
   113926993, 338241895, 666307205, 773529912, 1294757372, 1396182291,
   1695183700, 1986661051, 2177026350, 2456956037, 2730485921, 2820302411,
   3259730800, 3345764771, 3516065817, 3600352804, 4094571909, 275423344,
   430227734, 506948616, 659060556, 883997877, 958139571, 1322822218,
   1537002063, 1747873779, 1955562222, 2024104815, 2227730452, 2361852424,
   2428436474, 2756734187, 3204031479, 3329325298]

/-- The 8 SHA-256 initial hash words (written in decimal). -/
def shaH0 : List Nat :=
  [1779033703, 3144134277, 1013904242, 2773480762,
   1359893119, 2600822924, 528734635, 1541459225]

/-- The 8-byte big-endian encoding of a (bit-)length. -/
def len8 (n : Nat) : List Nat :=
  [(n >>> 56) % 256, (n >>> 48) % 256, (n >>> 40) % 256, (n >>> 32) % 256,
   (n >>> 24) % 256, (n >>> 16) % 256, (n >>> 8) % 256, n % 256]

/-- SHA-256 message padding: append `0x80`, zeros to 56 mod 64, then the
bit length as 8 big-endian bytes. -/
def padMsg (m : List Nat) : List Nat :=
  m ++ 128 :: List.replicate ((64 - (m.length + 9) % 64) % 64) 0 ++ len8 (8 * m.length)

/-- Pack bytes into big-endian 32-bit words, four bytes at a time. -/
def bytesToWords : List Nat → List Nat
  | a :: b :: c :: d :: rest => (((a * 256 + b) * 256 + c) * 256 + d) :: bytesToWords rest
  | _ => []

/-- Group a word list into 16-word blocks. -/
def toBlocks : List Nat → List (List Nat)
  | w0 :: w1 :: w2 :: w3 :: w4 :: w5 :: w6 :: w7 ::
    w8 :: w9 :: w10 :: w11 :: w12 :: w13 :: w14 :: w15 :: rest =>
      [w0, w1, w2, w3, w4, w5, w6, w7, w8, w9, w10, w11, w12, w13, w14, w15] :: toBlocks rest
  | _ => []

/-- Extend a 16-word block to the 64-word SHA-256 message schedule. -/
def schedule (ws : List Nat) : List Nat :=
  (List.range 48).foldl
    (fun acc _ =>
      acc ++ [(sSig1 (acc.getD (acc.length - 2) 0) + acc.getD (acc.length - 7) 0 +
               sSig0 (acc.getD (acc.length - 15) 0) + acc.getD (acc.length - 16) 0) % M32])
    ws

/-- One SHA-256 compression round on the 8-word working state, fed one
round constant and one schedule word. -/
def shaRound (st : Nat × Nat × Nat × Nat × Nat × Nat × Nat × Nat) (kw : Nat × Nat) :
    Nat × Nat × Nat × Nat × Nat × Nat × Nat × Nat :=
  let (a, b, c, d, e, f, g, h) := st
  let t1 := (h + bSig1 e + shaCh e f g + kw.1 + kw.2) % M32
  let t2 := (bSig0 a + shaMaj a b c) % M32
  ((t1 + t2) % M32, a, b, c, (d + t1) % M32, e, f, g)

/-- Compress one 16-word block into the running 8-word hash value. -/
def compressBlock (hs : List Nat) (block : List Nat) : List Nat :=
  let w := schedule block
  let st0 := (hs.getD 0 0, hs.getD 1 0, hs.getD 2 0, hs.getD 3 0,
              hs.getD 4 0, hs.getD 5 0, hs.getD 6 0, hs.getD 7 0)
  let fin := (shaK.zip w).foldl shaRound st0
  [(hs.getD 0 0 + fin.1) % M32, (hs.getD 1 0 + fin.2.1) % M32,
   (hs.getD 2 0 + fin.2.2.1) % M32, (hs.getD 3 0 + fin.2.2.2.1) % M32,
   (hs.getD 4 0 + fin.2.2.2.2.1) % M32, (hs.getD 5 0 + fin.2.2.2.2.2.1) % M32,
   (hs.getD 6 0 + fin.2.2.2.2.2.2.1) % M32, (hs.getD 7 0 + fin.2.2.2.2.2.2.2) % M32]

/-- Unpack 32-bit words into big-endian bytes. -/
def wordsBytes : List Nat → List Nat
  | [] => []
  | w :: ws => (w >>> 24) % 256 :: (w >>> 16) % 256 :: (w >>> 8) % 256 :: w % 256 :: wordsBytes ws

/-- SHA-256 of a byte string (`hashlib.sha256(m).digest()`). -/
def sha256 (m : List Nat) : List Nat :=
  wordsBytes ((toBlocks (bytesToWords (padMsg m))).foldl compressBlock shaH0)

/-- HMAC-SHA256 (`hmac.new(key, msg, hashlib.sha256).digest()`): keys
longer than the 64-byte block are hashed first, the key is zero-padded
to 64 bytes, and the usual ipad/opad construction is applied. -/
def hmacSHA256 (key msg : List Nat) : List Nat :=
  let k0 := if 64 < key.length then sha256 key else key
  let kp := k0 ++ List.replicate (64 - k0.length) 0
  sha256 (kp.map (fun b => b ^^^ 92) ++ sha256 (kp.map (fun b => b ^^^ 54) ++ msg))

/-! ## Canonical JSON of the token payload (`json.dumps` / `json.loads`)

The payload built at line 310 of the source is the four-field dict
`{"row": row, "origin": origin, "t0": t0, "exp": exp}` with integer
values, serialized by `json.dumps(payload, separators=(",", ":"))` —
compact separators, keys in insertion order. -/

/-- The signed token payload: row identity, origin duration, anchor
timestamp and expiry, all Python integers. -/
structure Payload where
  row : Int
  origin : Int
  t0 : Int
  exp : Int
deriving DecidableEq, Repr

/-- ASCII digits of a natural number, most significant first, produced
with structural fuel (the fuel `n + 1` always suffices). -/
def natDigs : Nat → Nat → List Nat
  | 0, _ => []
  | fuel + 1, n => if n < 10 then [48 + n] else natDigs fuel (n / 10) ++ [48 + n % 10]

/-- Decimal ASCII bytes of a natural number. -/
def natPrint (n : Nat) : List Nat := natDigs (n + 1) n

/-- Decimal ASCII bytes of a Python integer (45 is the ASCII code of the
minus sign). -/
def intPrint (n : Int) : List Nat :=
  if n < 0 then 45 :: natPrint (-n).toNat else natPrint n.toNat

/-- The byte `{"row":` literal. -/
def rowLit : List Nat := [123, 34, 114, 111, 119, 34, 58]

/-- The byte `,"origin":` literal. -/
def originLit : List Nat := [44, 34, 111, 114, 105, 103, 105, 110, 34, 58]

/-- The byte `,"t0":` literal. -/
def t0Lit : List Nat := [44, 34, 116, 48, 34, 58]

/-- The byte `,"exp":` literal. -/
def expLit : List Nat := [44, 34, 101, 120, 112, 34, 58]

/-- `json.dumps(payload, separators=(",", ":")).encode()`: the canonical
compact serialization of the payload, keys in insertion order. -/
def jsonBytes (p : Payload) : List Nat :=
  rowLit ++ intPrint p.row ++ originLit ++ intPrint p.origin ++
  t0Lit ++ intPrint p.t0 ++ expLit ++ intPrint p.exp ++ [125]

/-- Is the byte an ASCII digit or the minus sign? -/
def isIntB (b : Nat) : Bool := b = 45 || (48 ≤ b && b ≤ 57)

/-- Take the longest integer-byte run from the front of a byte string. -/
def spanInt : List Nat → List Nat × List Nat
  | [] => ([], [])
  | b :: rest =>
      if isIntB b then
        let (x, y) := spanInt rest
        (b :: x, y)
      else ([], b :: rest)

/-- Value of a string of ASCII digits. -/
def digitsVal (ds : List Nat) : Nat := ds.foldl (fun a b => a * 10 + (b - 48)) 0

/-- Is every byte an ASCII digit? -/
def allDigits (ds : List Nat) : Bool := ds.all (fun b => 48 ≤ b && b ≤ 57)

/-- Parse a complete byte string as a decimal integer: an optional
leading minus sign followed by at least one digit. -/
def intParse : List Nat → Option Int
  | [] => none
  | b :: tl =>
      if b = 45 then
        if tl ≠ [] && allDigits tl then some (-(digitsVal tl : Int)) else none
      else if allDigits (b :: tl) then some (digitsVal (b :: tl) : Int)
      else none

/-- Strip an expected literal from the front of a byte string. -/
def chomp : List Nat → List Nat → Option (List Nat)
  | [], s => some s
  | _ :: _, [] => none
  | l :: ls, b :: bs => if b = l then chomp ls bs else none

/-- Parse a leading decimal integer and return it with the remainder. -/
def parseIntField (s : List Nat) : Option (Int × List Nat) :=
  let (ds, rest) := spanInt s
  match intParse ds with
  | some n => some (n, rest)
  | none => none

/-- `json.loads` restricted to the canonical payload shape the codec
emits: the four integer fields in their fixed key order, compact
separators, nothing after the closing brace.  (The real `json.loads`
also accepts other JSON texts, but the decoder only parses bytes whose
HMAC has already been verified, which for an honest sender are exactly
this canonical form.) -/
def jsonLoads (bs : List Nat) : Option Payload := do
  let s1 ← chomp rowLit bs
  let (r, s2) ← parseIntField s1
  let s3 ← chomp originLit s2
  let (o, s4) ← parseIntField s3
  let s5 ← chomp t0Lit s4
  let (t, s6) ← parseIntField s5
  let s7 ← chomp expLit s6
  let (e, s8) ← parseIntField s7
  if s8 = [125] then pure ⟨r, o, t, e⟩ else none

/-! ## The token codec (`sign_token` and the documented decoder) -/

/-- The ASCII bytes of the fixed development placeholder key
`"dev-only"` used when no signing secret is configured. -/
def devOnly : List Nat := [100, 101, 118, 45, 111, 110, 108, 121]

/-- The key actually used for signing: `(secret or "dev-only").encode()`
— an empty (falsy) secret falls back to the placeholder. -/
def keyBytes (secret : List Nat) : List Nat := if secret = [] then devOnly else secret

/-- The source's `sign_token`: serialize the payload to canonical JSON,
HMAC-SHA256 it with the (fallback-defaulted) key, and join the two
unpadded base64url halves with a dot (ASCII 46). -/
def sign_token (p : Payload) (secret : List Nat) : List Nat :=
  b64url (jsonBytes p) ++ 46 :: b64url (hmacSHA256 (keyBytes secret) (jsonBytes p))

/-- The decode failures of the documented decoder: a structurally bad
token (wrong number of dot-parts, bad base64, unparseable payload), a
signature mismatch, and an expired payload. -/
inductive TokenErr where
  | malformed
  | badSignature
  | expired
deriving DecidableEq, Repr

/-- The decoder given in the source (`verify_and_load` in the secondary
app snippet): split on the dot, base64url-decode both halves, recompute
the HMAC over the decoded payload bytes with the same
fallback-defaulted key and compare, then parse the JSON and check the
expiry against the current time.  Exceptions raised by splitting or
base64 decoding surface as `malformed`. -/
def verify_and_load (token : List Nat) (secret : List Nat) (now : Int) : Except TokenErr Payload :=
  match splitB 46 token with
  | [json_b64, sig_b64] =>
      match b64Decode json_b64, b64Decode sig_b64 with
      | some data, some sig =>
          if hmacSHA256 (keyBytes secret) data = sig then
            match jsonLoads data with
            | some payload => if payload.exp < now then .error .expired else .ok payload
            | none => .error .malformed
          else .error .badSignature
      | _, _ => .error .malformed
  | _ => .error .malformed

/-- Flip one bit of a byte string: bit `i` is bit `i % 8` of byte
`i / 8`. -/
def flipBitAt (bs : List Nat) (i : Nat) : List Nat :=
  bs.set (i / 8) ((bs.getD (i / 8) 0) ^^^ (1 <<< (i % 8)))

/-! ## Python scalar values, `parse_seconds`, and the raw timer extraction

`parse_seconds` receives whatever JSON value the backend put under the
timer keys.  The model covers the scalar Python values a JSON response
decodes to (`None`, booleans, integers, floats, strings); containers
(lists, dicts) stringify to bracketed text outside the recognized
duration grammar and fall to the same 0 result as any other garbage.
Python floats are modeled as exact rationals; every float is a rational,
and no claim depends on values a float cannot represent. -/

inductive PyVal where
  | pynone
  | bool (b : Bool)
  | int (n : Int)
  | float (q : ℚ)
  | str (s : String)
deriving DecidableEq, Repr

/-- Python's `round` on a rational: round half to even. -/
def pyRound (q : ℚ) : Int :=
  let f : Int := ⌊q⌋
  if q - f < 1 / 2 then f
  else if (1 : ℚ) / 2 < q - f then f + 1
  else if f % 2 = 0 then f else f + 1

/-- Python `==` between a scalar value and another scalar: numeric types
(`bool`, `int`, `float`) compare by value across types, strings compare
by content, `None` equals only `None`. -/
def pyEq : PyVal → PyVal → Bool
  | .pynone, .pynone => true
  | .bool a, .bool b => a = b
  | .bool a, .int n => (if a then 1 else 0 : Int) = n
  | .bool a, .float q => ((if a then 1 else 0 : Int) : ℚ) = q
  | .int n, .bool b => n = (if b then 1 else 0 : Int)
  | .int n, .int m => n = m
  | .int n, .float q => (n : ℚ) = q
  | .float q, .bool b => q = ((if b then 1 else 0 : Int) : ℚ)
  | .float q, .int n => q = (n : ℚ)
  | .float q, .float r => q = r
  | .str a, .str b => a = b
  | _, _ => false

/-- Python truthiness of a scalar value. -/
def pyTruthy : PyVal → Bool
  | .pynone => false
  | .bool b => b
  | .int n => n ≠ 0
  | .float q => q ≠ 0
  | .str s => s ≠ ""

/-- Python `str()` of a scalar value.  For strings it is the string
itself; floats never reach a stringification in `parse_seconds` (the
numeric-type branch catches them first), so their printed form is
irrelevant here and is modeled as the bare numerator/denominator pair,
which like CPython's decimal form lies outside the duration grammar. -/
def pyStr : PyVal → String
  | .pynone => "None"
  | .bool b => if b then "True" else "False"
  | .int n => toString n
  | .float q => toString q.num ++ "/" ++ toString q.den
  | .str s => s

/-- Python `str.strip()` (ASCII whitespace) on a character list. -/
def isSpaceB (c : Char) : Bool :=
  c = ' ' || c = '\t' || c = '\n' || c = '\r' || c = '\x0b' || c = '\x0c'

/-- Strip leading and trailing whitespace. -/
def stripWs (l : List Char) : List Char :=
  ((l.dropWhile isSpaceB).reverse.dropWhile isSpaceB).reverse

/-- Python `str.isdigit` restricted to ASCII: nonempty and all digits.
(Python also accepts exotic Unicode digits there; on those `int()`
then raises inside the `try` and the function returns 0 through the
exception handler, the same result this model reaches by falling
through.) -/
def strIsDigit (l : List Char) : Bool := !l.isEmpty && l.all (fun c => 48 ≤ c.toNat && c.toNat ≤ 57)

/-- Value of an ASCII digit character list. -/
def digitsCharVal (l : List Char) : Nat := l.foldl (fun a c => a * 10 + (c.toNat - 48)) 0

/-- Split a character list at every colon, mirroring `s.split(":")`. -/
def splitColon : List Char → List (List Char)
  | [] => [[]]
  | c :: rest =>
      match splitColon rest with
      | [] => [[]]
      | r :: rs => if c = ':' then [] :: r :: rs else (c :: r) :: rs

/-- The source's `parse_seconds`: numeric types are rounded and clamped
to 0 (`int(round(value))` is the identity on `bool` and `int`, so the
rounding is spelled out only for floats); otherwise the stringified
value is stripped and matched as a pure digit string, `mm:ss`, or
`hh:mm:ss`; everything else (and every internal failure) yields 0. -/
def parse_seconds (v : PyVal) : Int :=
  match v with
  | .bool b => max 0 (if b then 1 else 0)
  | .int n => max 0 n
  | .float q => max 0 (pyRound q)
  | _ =>
    let s := stripWs (pyStr v).data
    if s.isEmpty then 0
    else if strIsDigit s then max 0 (digitsCharVal s : Int)
    else
      match splitColon s with
      | [m, sec] =>
          if strIsDigit m && strIsDigit sec then
            max 0 ((digitsCharVal m : Int) * 60 + (digitsCharVal sec : Int))
          else 0
      | [h, m, sec] =>
          if strIsDigit h && strIsDigit m && strIsDigit sec then
            max 0 ((digitsCharVal h : Int) * 3600 + (digitsCharVal m : Int) * 60 +
                   (digitsCharVal sec : Int))
          else 0
      | _ => 0

/-! ## The raw timer value extraction (lines 236-240 of the source)

The backend response value under `"A_Q"` is either absent, a scalar, or
a flat string-keyed object of scalars, which covers the shapes the
extraction code distinguishes (`isinstance(A_Q, dict)` and the `in`
containment test). -/

inductive AQVal where
  | scalar (v : PyVal)
  | dict (kvs : List (String × PyVal))
deriving DecidableEq, Repr

/-- The fields of the backend response consulted by the extraction;
`Option.none` models a key absent from the response dict. -/
structure GasData where
  timer_seconds : Option PyVal
  A_Q : Option AQVal
  current_Q : Option PyVal

/-- Python truthiness of the `A_Q` value (`data.get("A_Q", {}) or {}`
replaces a falsy value by the empty dict). -/
def aqTruthy : AQVal → Bool
  | .scalar v => pyTruthy v
  | .dict kvs => !kvs.isEmpty

/-- Does the string contain `"Q"` as a substring (Python `"Q" in s`)? -/
def containsQ : List Char → Bool
  | [] => false
  | c :: rest => c = 'Q' || containsQ rest

/-- The conditional expression
`A_Q.get("Q") if "Q" in A_Q else (next(iter(A_Q.values()), None) if isinstance(A_Q, dict) else None)`.
On a dict it is the value under `"Q"` if that key exists, else the first
value (or `None` if empty).  On a string, `"Q" in A_Q` is a substring
test; when it is true, `.get` raises `AttributeError` (modeled as
`Except.error`), and when false the `isinstance` test fails and the
expression is `None`.  On the remaining scalars the `in` test itself
raises `TypeError`. -/
def aqCandidate : AQVal → Except Unit PyVal
  | .dict kvs =>
      if kvs.any (fun kv => kv.1 = "Q") then
        .ok ((kvs.find? (fun kv => kv.1 = "Q")).map Prod.snd |>.getD .pynone)
      else .ok ((kvs.head?.map Prod.snd).getD .pynone)
  | .scalar (.str s) =>
      if containsQ s.data then .error () else .ok .pynone
  | .scalar _ => .error ()

/-- The raw timer candidate extraction: `timer_seconds` first unless it
is `None` or equals 0, then the `A_Q` sub-object's value unless that is
`None` or the empty string, then `current_Q`. -/
def rawQ (d : GasData) : Except Unit PyVal :=
  let r1 := d.timer_seconds.getD .pynone
  if pyEq r1 .pynone || pyEq r1 (.int 0) then do
    let aq := (fun x => if aqTruthy x then x else .dict []) (d.A_Q.getD (.dict []))
    let r2 ← aqCandidate aq
    if pyEq r2 .pynone || pyEq r2 (.str "") then
      pure (d.current_Q.getD .pynone)
    else pure r2
  else .ok r1

/-! ## The session countdown latch and the remaining-time computation
(lines 245-254 of the source) -/

/-- The countdown anchor stored in the session state: the origin
duration read from the sheet and the epoch second at which it was
latched. -/
structure Anchor where
  origin : Int
  t0 : Int
deriving DecidableEq, Repr

/-- One render pass of the session-state latch: if no anchor is stored
under the session key, or the stored anchor's origin differs from the
freshly parsed value, store and return a fresh anchor at the current
time; otherwise keep the stored anchor. -/
def latchStep (prev : Option Anchor) (origin : Int) (now : Int) : Anchor :=
  match prev with
  | none => ⟨origin, now⟩
  | some a => if a.origin ≠ origin then ⟨origin, now⟩ else a

/-- Line 253: `elapsed = max(0, utc_now_ts() - int(latched["t0"]))`. -/
def elapsedAt (t0 now : Int) : Int := max 0 (now - t0)

/-- Line 254: `remaining = max(0, int(latched["origin"]) - elapsed)`. -/
def remainingAt (origin t0 now : Int) : Int := max 0 (origin - elapsedAt t0 now)

/-- The remaining-time formula as the specification states it:
`max(0, origin - (now - anchoredAt))`, with no clamp on the elapsed
term. -/
def specRemaining (origin t0 now : Int) : Int := max 0 (origin - (now - t0))

/-- The token wire format as §4.3/§6 of the specification words it:
unpadded base64url of the canonical compact JSON payload, a dot, and
unpadded base64url of the HMAC-SHA256 digest of the payload bytes keyed
by the secret, with an empty secret replaced by the fixed development
placeholder key.  This is the specification-side definition, written
with the direct no-padding encoder; the source-side `sign_token` instead
strips `=` padding off the padded encoder's output. -/
def wireFormat (p : Payload) (secret : List Nat) : List Nat :=
  b64Encode (jsonBytes p) ++ 46 ::
    b64Encode (hmacSHA256 (if secret = [] then devOnly else secret) (jsonBytes p))

/-! ## Claims C3-C7, C9, C10: parser, latch, remaining time -/

/-- C3, counterexample: the explicit seconds field present with the
value 0 does NOT win — the extraction falls through to the legacy alias
field `current_Q` and returns its value, not 0.  This refutes the
claim's "including 0" clause at the concrete response
`{timer_seconds: 0, current_Q: "120"}`. -/
theorem C3_counterexample :
    (GasData.mk (some (.int 0)) none (some (.str "120"))).timer_seconds = some (.int 0)
    ∧ rawQ (GasData.mk (some (.int 0)) none (some (.str "120"))) = .ok (.str "120")
    ∧ PyVal.str "120" ≠ PyVal.int 0 := by
  exact ⟨rfl, rfl, by decide⟩

/-- C3, amended: the raw-duration candidates are tried in the order
`timer_seconds`, then the `A_Q` sub-object's value, then `current_Q`,
but a `timer_seconds` equal to 0 (or `None`) is treated as absent and
the later candidates ARE consulted; only a non-empty, non-zero
`timer_seconds` short-circuits the chain.  The `A_Q` candidate is
skipped when it is `None` or the empty string. -/
theorem C3_raw_candidate_precedence (d : GasData) (v w : PyVal) (kvs : List (String × PyVal)) :
    (d.timer_seconds = some v → pyEq v .pynone = false → pyEq v (.int 0) = false →
        rawQ d = .ok v)
    ∧ ((pyEq (d.timer_seconds.getD .pynone) .pynone = true ∨
          pyEq (d.timer_seconds.getD .pynone) (.int 0) = true) →
        d.A_Q = some (.dict kvs) → kvs.find? (fun kv => kv.1 = "Q") = some ("Q", w) →
        pyEq w .pynone = false → pyEq w (.str "") = false →
        rawQ d = .ok w)
    ∧ ((pyEq (d.timer_seconds.getD .pynone) .pynone = true ∨
          pyEq (d.timer_seconds.getD .pynone) (.int 0) = true) →
        d.A_Q = none →
        rawQ d = .ok (d.current_Q.getD .pynone)) := by
  refine ⟨?_, ?_, ?_⟩
  · intro hts h1 h2
    simp [rawQ, hts, h1, h2]
  · intro hts haq hfind h1 h2
    have hmem := List.mem_of_find?_eq_some hfind
    have hany : kvs.any (fun kv => kv.1 = "Q") = true :=
      List.any_eq_true.mpr ⟨("Q", w), hmem, by simp⟩
    have hne : kvs.isEmpty = false := by
      cases kvs with
      | nil => cases hmem
      | cons a as => rfl
    rcases hts with h | h <;>
      simp [rawQ, h, haq, aqTruthy, hne, aqCandidate, hany, hfind, h1, h2,
        Bind.bind, Except.bind, pure, Except.pure]
  · intro hts haq
    rcases hts with h | h <;>
      simp [rawQ, h, haq, aqTruthy, aqCandidate, Bind.bind, Except.bind, pure, Except.pure,
        show pyEq PyVal.pynone PyVal.pynone = true from rfl]

/-- Witness for C3: the three precedence cases evaluated at concrete
backend responses. -/
theorem C3_raw_candidate_precedence_witness :
    rawQ (GasData.mk (some (.int 5)) none none) = .ok (.int 5)
    ∧ rawQ (GasData.mk (some (.int 0)) (some (.dict [("Q", .str "120")])) none) = .ok (.str "120")
    ∧ rawQ (GasData.mk none none (some (.str "99"))) = .ok (.str "99") := by
  refine ⟨?_, ?_, ?_⟩
  · exact (C3_raw_candidate_precedence (GasData.mk (some (.int 5)) none none)
      (.int 5) .pynone []).1 rfl (by decide) (by decide)
  · exact (C3_raw_candidate_precedence
      (GasData.mk (some (.int 0)) (some (.dict [("Q", .str "120")])) none)
      .pynone (.str "120") [("Q", .str "120")]).2.1 (Or.inr (by decide)) rfl rfl
      (by decide) (by decide)
  · exact (C3_raw_candidate_precedence (GasData.mk none none (some (.str "99")))
      .pynone .pynone []).2.2 (Or.inl (by decide)) rfl

/-- C4, counterexample: with origin 10, anchor time 100 and a skewed
clock reading now = 50 (before the anchor), the code displays 10 while
the claimed formula `max(0, origin - (now - anchoredAt))` gives 60. -/
theorem C4_counterexample :
    remainingAt 10 100 50 = 10 ∧ specRemaining 10 100 50 = 60 ∧
    remainingAt 10 100 50 ≠ specRemaining 10 100 50 := by decide

/-- C4, amended: the displayed remaining value equals
`max(0, origin - (now - anchoredAt))` whenever `now` is at or after the
anchor time; when `now` precedes the anchor time the elapsed term is
clamped to 0 first, so the display shows `origin` itself rather than
the larger value of the unclamped formula. -/
theorem C4_remaining_clamped_formula (origin t0 now : Int) (h : 0 ≤ origin) :
    (t0 ≤ now → remainingAt origin t0 now = specRemaining origin t0 now)
    ∧ (now < t0 → remainingAt origin t0 now = origin) := by
  unfold remainingAt specRemaining elapsedAt
  omega

/-- Witness for C4: both branches of the amended formula evaluated at
concrete anchors. -/
theorem C4_remaining_clamped_formula_witness :
    remainingAt 10 0 4 = specRemaining 10 0 4 ∧ remainingAt 10 20 5 = 10 := by
  exact ⟨(C4_remaining_clamped_formula 10 0 4 (by decide)).1 (by decide),
         (C4_remaining_clamped_formula 10 20 5 (by decide)).2 (by decide)⟩

/-- C5: the session latch stores a fresh anchor `{origin, t0 := now}`
when nothing is stored or the stored origin differs, returns the stored
anchor unchanged otherwise, is idempotent across repeated render passes
with the same origin, and re-anchors at the calling render's `now`
whenever the origin changed. -/
theorem C5_latch_contract (prev : Option Anchor) (o n : Int) :
    ((prev = none ∨ ∃ a, prev = some a ∧ a.origin ≠ o) → latchStep prev o n = ⟨o, n⟩)
    ∧ (∀ a, prev = some a → a.origin = o → latchStep prev o n = a)
    ∧ (∀ n2, latchStep (some (latchStep prev o n)) o n2 = latchStep prev o n)
    ∧ (∀ (a : Anchor) (o2 n2 : Int), a.origin ≠ o2 → (latchStep (some a) o2 n2).t0 = n2) := by
  have horig : (latchStep prev o n).origin = o := by
    cases prev with
    | none => rfl
    | some a => by_cases h : a.origin = o <;> simp [latchStep, h]
  refine ⟨?_, ?_, ?_, ?_⟩
  · rintro (rfl | ⟨a, rfl, ha⟩)
    · rfl
    · simp [latchStep, ha]
  · rintro a rfl ha
    simp [latchStep, ha]
  · intro n2
    generalize hr : latchStep prev o n = r at horig ⊢
    simp [latchStep, horig]
  · intro a o2 n2 ha
    simp [latchStep, ha]

/-- Witness for C5: fresh latch, idempotent re-render, and re-anchor on
an origin change, at concrete values. -/
theorem C5_latch_contract_witness :
    latchStep none 120 1000 = ⟨120, 1000⟩
    ∧ latchStep (some (latchStep none 120 1000)) 120 1005 = latchStep none 120 1000
    ∧ (latchStep (some ⟨120, 1000⟩) 60 1005).t0 = 1005 := by
  exact ⟨(C5_latch_contract none 120 1000).1 (Or.inl rfl),
         (C5_latch_contract none 120 1000).2.2.1 1005,
         (C5_latch_contract none 0 0).2.2.2 ⟨120, 1000⟩ 60 1005 (by decide)⟩

/-- C6: the reference values of the duration parser: "120" gives 120,
"02:00" gives 120, "01:02:03" gives 3723, the empty string and garbage
give 0, and the integer -5 is clamped to 0. -/
theorem C6_parse_reference_values :
    parse_seconds (.str "120") = 120 ∧ parse_seconds (.str "02:00") = 120 ∧
    parse_seconds (.str "01:02:03") = 3723 ∧ parse_seconds (.str "") = 0 ∧
    parse_seconds (.str "garbage") = 0 ∧ parse_seconds (.int (-5)) = 0 := by decide

/-- C7: `parse_seconds` is a total function of its input value (no
exception escapes: the source wraps the body in a catch-all handler
returning 0) and its result is always a non-negative integer. -/
theorem C7_parse_total_nonneg (v : PyVal) : 0 ≤ parse_seconds v := by
  unfold parse_seconds
  cases v <;> dsimp only
  case bool b => exact le_max_left 0 _
  case int n => exact le_max_left 0 _
  case float q => exact le_max_left 0 _
  all_goals (repeat' split) <;> first | exact le_refl 0 | exact le_max_left 0 _

/-- C9: for a fixed anchor, the remaining time is non-increasing in the
current time and never negative. -/
theorem C9_remaining_monotone (origin t0 n1 n2 : Int) (h0 : 0 ≤ origin) (h : n1 ≤ n2) :
    remainingAt origin t0 n2 ≤ remainingAt origin t0 n1 ∧ 0 ≤ remainingAt origin t0 n2 := by
  unfold remainingAt elapsedAt
  omega

/-- Witness for C9 at a concrete anchor and pair of times. -/
theorem C9_remaining_monotone_witness :
    remainingAt 5 0 2 ≤ remainingAt 5 0 1 ∧ 0 ≤ remainingAt 5 0 2 := by
  exact C9_remaining_monotone 5 0 1 2 (by decide) (by decide)

/-- C10: the displayed remaining value never exceeds the anchor's
origin, even when the current time precedes the anchor time, because
the elapsed term is clamped to be non-negative before subtraction. -/
theorem C10_remaining_le_origin (origin t0 now : Int) (h : 0 ≤ origin) :
    remainingAt origin t0 now ≤ origin := by
  unfold remainingAt elapsedAt
  omega

/-- Witness for C10 at a clock-skewed concrete input. -/
theorem C10_remaining_le_origin_witness : remainingAt 7 100 50 ≤ 7 := by
  exact C10_remaining_le_origin 7 100 50 (by decide)

/-! ## Base64url facts -/

/-- Decoding inverts the alphabet on 6-bit indices. -/
theorem decChar_encChar {i : Nat} (h : i < 64) : decChar (encChar i) = some i := by
  have hall : ∀ j < 64, decChar (encChar j) = some j := by decide
  exact hall i h

/-- Alphabet characters are never the dot (46) or the padding sign (61). -/
theorem encChar_ne (i : Nat) : encChar i ≠ 46 ∧ encChar i ≠ 61 := by
  unfold encChar
  repeat' split
  all_goals omega

/-- Base64url decoding inverts the unpadded encoding on byte strings. -/
theorem b64_decode_encode : ∀ m : List Nat, (∀ b ∈ m, b < 256) → b64Decode (b64Encode m) = some m
  | [] => fun _ => rfl
  | [a] => fun h => by
      have ha : a < 256 := h a (by simp)
      simp [b64Encode, b64Decode,
        decChar_encChar (show a / 4 < 64 by omega),
        decChar_encChar (show a % 4 * 16 < 64 by omega), Option.bind]
      omega
  | [a, b] => fun h => by
      have ha : a < 256 := h a (by simp)
      have hb : b < 256 := h b (by simp)
      simp [b64Encode, b64Decode,
        decChar_encChar (show a / 4 < 64 by omega),
        decChar_encChar (show a % 4 * 16 + b / 16 < 64 by omega),
        decChar_encChar (show b % 16 * 4 < 64 by omega), Option.bind]
      omega
  | a :: b :: c :: d :: rest => fun h => by
      have ha : a < 256 := h a (by simp)
      have hb : b < 256 := h b (by simp)
      have hc : c < 256 := h c (by simp)
      have hr := b64_decode_encode (d :: rest) (fun x hx => h x (by simp [hx]))
      simp [b64Encode, b64Decode,
        decChar_encChar (show a / 4 < 64 by omega),
        decChar_encChar (show a % 4 * 16 + b / 16 < 64 by omega),
        decChar_encChar (show b % 16 * 4 + c / 64 < 64 by omega),
        decChar_encChar (show c % 64 < 64 by omega), hr, Option.bind]
      omega
  | [a, b, c] => fun h => by
      have ha : a < 256 := h a (by simp)
      have hb : b < 256 := h b (by simp)
      have hc : c < 256 := h c (by simp)
      simp [b64Encode, b64Decode,
        decChar_encChar (show a / 4 < 64 by omega),
        decChar_encChar (show a % 4 * 16 + b / 16 < 64 by omega),
        decChar_encChar (show b % 16 * 4 + c / 64 < 64 by omega),
        decChar_encChar (show c % 64 < 64 by omega), Option.bind]
      omega

/-- Every character the encoder emits avoids dot and padding. -/
theorem b64Encode_mem : ∀ m : List Nat, ∀ c ∈ b64Encode m, c ≠ 46 ∧ c ≠ 61
  | [] => by simp [b64Encode]
  | [a] => by
      simp only [b64Encode, List.mem_cons, List.not_mem_nil, or_false]
      rintro c (rfl | rfl) <;> exact encChar_ne _
  | [a, b] => by
      simp only [b64Encode, List.mem_cons, List.not_mem_nil, or_false]
      rintro c (rfl | rfl | rfl) <;> exact encChar_ne _
  | a :: b :: c :: d :: rest => by
      intro x hx
      simp only [b64Encode, List.mem_cons] at hx
      rcases hx with rfl | rfl | rfl | rfl | hx
      · exact encChar_ne _
      · exact encChar_ne _
      · exact encChar_ne _
      · exact encChar_ne _
      · exact b64Encode_mem (d :: rest) x hx
  | [a, b, c] => by
      simp only [b64Encode, List.mem_cons] at *
      rintro x (rfl | rfl | rfl | rfl | hx)
      · exact encChar_ne _
      · exact encChar_ne _
      · exact encChar_ne _
      · exact encChar_ne _
      · cases hx

/-- If decoding succeeds, every input character is in the alphabet. -/
theorem b64Decode_chars : ∀ s m : List Nat, b64Decode s = some m → ∀ c ∈ s, decChar c ≠ none
  | [], _, _ => by simp
  | [c1], m, h => by simp [b64Decode] at h
  | [c1, c2], m, h => by
      intro c hc
      cases h1 : decChar c1 with
      | none => simp [b64Decode, h1] at h
      | some d1 =>
        cases h2 : decChar c2 with
        | none => simp [b64Decode, h1, h2] at h
        | some d2 =>
          simp only [List.mem_cons, List.not_mem_nil, or_false] at hc
          rcases hc with rfl | rfl <;> simp [h1, h2]
  | [c1, c2, c3], m, h => by
      intro c hc
      cases h1 : decChar c1 with
      | none => simp [b64Decode, h1] at h
      | some d1 =>
        cases h2 : decChar c2 with
        | none => simp [b64Decode, h1, h2] at h
        | some d2 =>
          cases h3 : decChar c3 with
          | none => simp [b64Decode, h1, h2, h3] at h
          | some d3 =>
            simp only [List.mem_cons, List.not_mem_nil, or_false] at hc
            rcases hc with rfl | rfl | rfl <;> simp [h1, h2, h3]
  | c1 :: c2 :: c3 :: c4 :: rest, m, h => by
      intro c hc
      cases h1 : decChar c1 with
      | none => simp [b64Decode, h1] at h
      | some d1 =>
        cases h2 : decChar c2 with
        | none => simp [b64Decode, h1, h2] at h
        | some d2 =>
          cases h3 : decChar c3 with
          | none => simp [b64Decode, h1, h2, h3] at h
          | some d3 =>
            cases h4 : decChar c4 with
            | none => simp [b64Decode, h1, h2, h3, h4] at h
            | some d4 =>
              cases h5 : b64Decode rest with
              | none => simp [b64Decode, h1, h2, h3, h4, h5] at h
              | some tl =>
                simp only [List.mem_cons] at hc
                rcases hc with rfl | rfl | rfl | rfl | hc
                · simp [h1]
                · simp [h2]
                · simp [h3]
                · simp [h4]
                · exact b64Decode_chars rest tl h5 c hc

/-- A successfully decoded string contains no dot. -/
theorem b64Decode_no_dot {s m : List Nat} (h : b64Decode s = some m) : 46 ∉ s := by
  intro hmem
  exact b64Decode_chars s m h 46 hmem rfl

/-- Stripping trailing padding commutes with a padding-free front. -/
theorem dropPad_append (xs ys : List Nat) (hx : ∀ c ∈ xs, c ≠ 61) :
    dropPad (xs ++ ys) = xs ++ dropPad ys := by
  induction xs with
  | nil => rfl
  | cons c xs ih =>
    have hc : c ≠ 61 := hx c (by simp)
    have ih' := ih (fun d hd => hx d (by simp [hd]))
    cases hcase : xs ++ dropPad ys with
    | nil =>
      rcases List.append_eq_nil.mp hcase with ⟨rfl, h2⟩
      simp [dropPad, ih', hcase, hc, h2]
    | cons r rs =>
      simp [dropPad, ih', hcase, hc]

/-- The source's strip-the-padding encoder equals the direct unpadded
encoder. -/
theorem b64url_eq : ∀ m : List Nat, b64url m = b64Encode m
  | [] => rfl
  | [a] => by
      show dropPad ([encChar (a / 4), encChar (a % 4 * 16)] ++ [61, 61]) = _
      rw [dropPad_append]
      · rfl
      · rintro c hc
        simp only [List.mem_cons, List.not_mem_nil, or_false] at hc
        rcases hc with rfl | rfl <;> exact (encChar_ne _).2
  | [a, b] => by
      show dropPad ([encChar (a / 4), encChar (a % 4 * 16 + b / 16), encChar (b % 16 * 4)]
        ++ [61]) = _
      rw [dropPad_append]
      · rfl
      · rintro c hc
        simp only [List.mem_cons, List.not_mem_nil, or_false] at hc
        rcases hc with rfl | rfl | rfl <;> exact (encChar_ne _).2
  | a :: b :: c :: rest => by
      show dropPad ([encChar (a / 4), encChar (a % 4 * 16 + b / 16),
        encChar (b % 16 * 4 + c / 64), encChar (c % 64)] ++ b64EncodePadded rest) = _
      rw [dropPad_append]
      · show _ ++ b64url rest = _
        rw [b64url_eq rest]
        rfl
      · rintro x hx
        simp only [List.mem_cons, List.not_mem_nil, or_false] at hx
        rcases hx with rfl | rfl | rfl | rfl <;> exact (encChar_ne _).2

/-! ## Splitting facts -/

/-- A separator-free string splits to itself. -/
theorem splitB_no_sep (sep : Nat) (b : List Nat) (h : sep ∉ b) : splitB sep b = [b] := by
  induction b with
  | nil => rfl
  | cons c b ih =>
    have hc : c ≠ sep := fun hh => h (by simp [hh])
    have ih' := ih (fun hh => h (by simp [hh]))
    simp [splitB, ih', hc]

/-- Splitting a two-part string on its single separator returns the two
parts. -/
theorem splitB_two (sep : Nat) (a b : List Nat) (ha : sep ∉ a) (hb : sep ∉ b) :
    splitB sep (a ++ sep :: b) = [a, b] := by
  induction a with
  | nil => simp [splitB, splitB_no_sep sep b hb]
  | cons c a ih =>
    have hc : c ≠ sep := fun hh => ha (by simp [hh])
    have ih' := ih (fun hh => ha (by simp [hh]))
    simp [splitB, ih', hc]

/-! ## Decimal and JSON facts -/

/-- Printed digits lie in the ASCII digit range. -/
theorem natDigs_digits : ∀ f n : Nat, ∀ b ∈ natDigs f n, 48 ≤ b ∧ b ≤ 57 := by
  intro f
  induction f with
  | zero => intro n b hb; cases hb
  | succ f ih =>
    intro n b hb
    by_cases h : n < 10
    · simp [natDigs, h] at hb
      omega
    · simp only [natDigs, h, if_false] at hb
      rcases List.mem_append.mp hb with hb | hb
      · exact ih _ b hb
      · simp at hb; omega

/-- With positive fuel the printer emits at least one digit. -/
theorem natDigs_ne_nil (f n : Nat) (hf : 0 < f) : natDigs f n ≠ [] := by
  cases f with
  | zero => omega
  | succ f =>
    by_cases h : n < 10 <;> simp [natDigs, h]

/-- Reading one more digit multiplies the accumulated value by ten. -/
theorem digitsVal_append (ds : List Nat) (d : Nat) :
    digitsVal (ds ++ [d]) = digitsVal ds * 10 + (d - 48) := by
  simp [digitsVal, List.foldl_append]

/-- The digit reader inverts the printer given sufficient fuel. -/
theorem natDigs_val : ∀ f n : Nat, n < f → digitsVal (natDigs f n) = n := by
  intro f
  induction f with
  | zero => omega
  | succ f ih =>
    intro n hn
    by_cases h : n < 10
    · simp only [natDigs, if_pos h, digitsVal, List.foldl_cons, List.foldl_nil]
      omega
    · have h10 : n / 10 < f := by omega
      simp only [natDigs, h, if_false]
      rw [digitsVal_append, ih _ h10]
      omega

/-- The digit reader inverts `natPrint`. -/
theorem natPrint_val (n : Nat) : digitsVal (natPrint n) = n := natDigs_val (n + 1) n (by omega)

/-- `natPrint` emits only digits. -/
theorem natPrint_allDigits (n : Nat) : allDigits (natPrint n) = true := by
  rw [allDigits, List.all_eq_true]
  intro b hb
  have := natDigs_digits (n + 1) n b hb
  simp
  omega

/-- `natPrint` is never empty. -/
theorem natPrint_ne_nil (n : Nat) : natPrint n ≠ [] := natDigs_ne_nil (n + 1) n (by omega)

/-- `natPrint` never starts with a minus sign. -/
theorem natPrint_head_ne_45 (n : Nat) (c : Nat) (cs : List Nat) (h : natPrint n = c :: cs) :
    c ≠ 45 := by
  have := natDigs_digits (n + 1) n c (by rw [natPrint] at h; rw [h]; simp)
  omega

/-- Integer parsing inverts integer printing. -/
theorem intParse_intPrint (n : Int) : intParse (intPrint n) = some n := by
  by_cases hn : n < 0
  · have : intPrint n = 45 :: natPrint (-n).toNat := by simp [intPrint, hn]
    rw [this]
    simp [intParse, natPrint_ne_nil, natPrint_allDigits, natPrint_val]
    omega
  · have hp : intPrint n = natPrint n.toNat := by simp [intPrint, hn]
    rw [hp]
    cases hd : natPrint n.toNat with
    | nil => exact absurd hd (natPrint_ne_nil _)
    | cons c cs =>
      have hc : c ≠ 45 := natPrint_head_ne_45 _ _ _ hd
      have hall : allDigits (c :: cs) = true := by rw [← hd]; exact natPrint_allDigits _
      have hval : digitsVal (c :: cs) = n.toNat := by rw [← hd]; exact natPrint_val _
      simp [intParse, hc, hall, hval]
      omega

/-- Printed integers consist of integer bytes (digits or the sign). -/
theorem intPrint_intBytes (n : Int) : ∀ b ∈ intPrint n, isIntB b = true := by
  intro b hb
  by_cases hn : n < 0
  · simp only [intPrint, if_pos hn, List.mem_cons] at hb
    rcases hb with rfl | hb
    · rfl
    · have := natDigs_digits _ _ b hb
      simp [isIntB]
      omega
  · simp only [intPrint, if_neg hn] at hb
    have := natDigs_digits _ _ b hb
    simp [isIntB]
    omega

/-- Spanning integer bytes stops exactly at the first non-integer byte. -/
theorem spanInt_append (xs : List Nat) (y : Nat) (r : List Nat)
    (hxs : ∀ b ∈ xs, isIntB b = true) (hy : isIntB y = false) :
    spanInt (xs ++ y :: r) = (xs, y :: r) := by
  induction xs with
  | nil => simp [spanInt, hy]
  | cons c cs ih =>
    have hc := hxs c (by simp)
    have ih' := ih (fun b hb => hxs b (by simp [hb]))
    simp [spanInt, hc, ih']

/-- A printed integer followed by a non-integer byte parses back. -/
theorem parseIntField_append (n : Int) (y : Nat) (r : List Nat) (hy : isIntB y = false) :
    parseIntField (intPrint n ++ y :: r) = some (n, y :: r) := by
  rw [parseIntField, spanInt_append _ _ _ (intPrint_intBytes n) hy]
  simp [intParse_intPrint]

/-- Field parsing at a comma. -/
theorem parseIntField_comma (n : Int) (r : List Nat) :
    parseIntField (intPrint n ++ 44 :: r) = some (n, 44 :: r) :=
  parseIntField_append n 44 r rfl

/-- Field parsing at the closing brace. -/
theorem parseIntField_brace (n : Int) :
    parseIntField (intPrint n ++ [125]) = some (n, [125]) :=
  parseIntField_append n 125 [] rfl

/-- Chomping an expected literal off its own prepend succeeds. -/
theorem chomp_append : ∀ (L r : List Nat), chomp L (L ++ r) = some r
  | [], r => rfl
  | l :: ls, r => by simp [chomp, chomp_append ls r]

/-- The canonical JSON reader inverts the canonical JSON printer. -/
theorem jsonLoads_jsonBytes (p : Payload) : jsonLoads (jsonBytes p) = some p := by
  have h1 : jsonBytes p = rowLit ++ (intPrint p.row ++ 44 ::
      ([34, 111, 114, 105, 103, 105, 110, 34, 58] ++ (intPrint p.origin ++ 44 ::
      ([34, 116, 48, 34, 58] ++ (intPrint p.t0 ++ 44 ::
      ([34, 101, 120, 112, 34, 58] ++ (intPrint p.exp ++ [125]))))))) := by
    simp [jsonBytes, originLit, t0Lit, expLit]
  rw [jsonLoads, h1, chomp_append]
  simp only [Option.bind_eq_bind, Option.some_bind]
  rw [parseIntField_comma]
  simp only [Option.some_bind]
  rw [show (44 :: ([34, 111, 114, 105, 103, 105, 110, 34, 58] ++ (intPrint p.origin ++ 44 ::
      ([34, 116, 48, 34, 58] ++ (intPrint p.t0 ++ 44 ::
      ([34, 101, 120, 112, 34, 58] ++ (intPrint p.exp ++ [125])))))) : List Nat)
    = originLit ++ (intPrint p.origin ++ 44 ::
      ([34, 116, 48, 34, 58] ++ (intPrint p.t0 ++ 44 ::
      ([34, 101, 120, 112, 34, 58] ++ (intPrint p.exp ++ [125]))))) from by simp [originLit]]
  rw [chomp_append]
  simp only [Option.some_bind]
  rw [parseIntField_comma]
  simp only [Option.some_bind]
  rw [show (44 :: ([34, 116, 48, 34, 58] ++ (intPrint p.t0 ++ 44 ::
      ([34, 101, 120, 112, 34, 58] ++ (intPrint p.exp ++ [125])))) : List Nat)
    = t0Lit ++ (intPrint p.t0 ++ 44 ::
      ([34, 101, 120, 112, 34, 58] ++ (intPrint p.exp ++ [125]))) from by simp [t0Lit]]
  rw [chomp_append]
  simp only [Option.some_bind]
  rw [parseIntField_comma]
  simp only [Option.some_bind]
  rw [show (44 :: ([34, 101, 120, 112, 34, 58] ++ (intPrint p.exp ++ [125])) : List Nat)
    = expLit ++ (intPrint p.exp ++ [125]) from by simp [expLit]]
  rw [chomp_append]
  simp only [Option.some_bind]
  rw [parseIntField_brace]
  simp only [Option.some_bind]
  simp

/-! ## Byte-range facts -/

/-- Words unpack to bytes below 256. -/
theorem wordsBytes_lt : ∀ ws : List Nat, ∀ b ∈ wordsBytes ws, b < 256 := by
  intro ws
  induction ws with
  | nil => simp [wordsBytes]
  | cons w ws ih =>
    intro b hb
    simp only [wordsBytes, List.mem_cons] at hb
    rcases hb with rfl | rfl | rfl | rfl | hb
    · omega
    · omega
    · omega
    · omega
    · exact ih b hb

/-- SHA-256 digests are byte strings. -/
theorem sha256_lt (m : List Nat) : ∀ b ∈ sha256 m, b < 256 := wordsBytes_lt _

/-- HMAC-SHA256 digests are byte strings. -/
theorem hmac_lt (k m : List Nat) : ∀ b ∈ hmacSHA256 k m, b < 256 := sha256_lt _

/-- Printed integers are byte strings. -/
theorem intPrint_lt (n : Int) : ∀ b ∈ intPrint n, b < 256 := by
  intro b hb
  have := intPrint_intBytes n b hb
  simp [isIntB] at this
  omega

/-- The canonical JSON payload is a byte string. -/
theorem jsonBytes_lt (p : Payload) : ∀ b ∈ jsonBytes p, b < 256 := by
  intro b hb
  simp only [jsonBytes, rowLit, originLit, t0Lit, expLit, List.mem_append, List.mem_cons,
    List.not_mem_nil, or_false] at hb
  rcases hb with ((((((((hb | hb) | hb) | hb) | hb) | hb) | hb) | hb) | hb)
  all_goals first
    | omega
    | exact intPrint_lt _ b hb

/-! ## Token structure facts -/

/-- The encoder never emits a dot. -/
theorem b64Encode_no_dot (m : List Nat) : 46 ∉ b64Encode m := by
  intro h
  exact (b64Encode_mem m 46 h).1 rfl

/-- Splitting a signed token on the dot recovers exactly its two
halves. -/
theorem sign_token_split (p : Payload) (secret : List Nat) :
    splitB 46 (sign_token p secret) =
      [b64Encode (jsonBytes p), b64Encode (hmacSHA256 (keyBytes secret) (jsonBytes p))] := by
  rw [sign_token, b64url_eq, b64url_eq]
  exact splitB_two 46 _ _ (b64Encode_no_dot _) (b64Encode_no_dot _)

/-- Indexing the front segment of a concatenation. -/
theorem getD_append_left : ∀ (l l' : List Nat) (n : Nat), n < l.length →
    (l ++ l').getD n 0 = l.getD n 0
  | [], _, n, h => by simp at h
  | a :: l, l', 0, _ => rfl
  | a :: l, l', n + 1, h => by
      simp only [List.cons_append, List.getD_cons_succ]
      exact getD_append_left l l' n (by simpa using h)

/-- Updating the front segment of a concatenation. -/
theorem set_append_left : ∀ (l l' : List Nat) (n : Nat) (x : Nat), n < l.length →
    (l ++ l').set n x = l.set n x ++ l'
  | [], _, n, _, h => by simp at h
  | a :: l, l', 0, x, _ => rfl
  | a :: l, l', n + 1, x, h => by
      simp only [List.cons_append, List.set_cons_succ]
      rw [set_append_left l l' n x (by simpa using h)]

/-- A bit flip confined to the front segment leaves the rest of the
concatenation untouched. -/
theorem flipBitAt_append (l l' : List Nat) (i : Nat) (h : i < 8 * l.length) :
    flipBitAt (l ++ l') i = flipBitAt l i ++ l' := by
  have hd : i / 8 < l.length := by omega
  rw [flipBitAt, flipBitAt, getD_append_left l l' _ hd, set_append_left l l' _ _ hd]

/-! ## Claims C1, C2, C8: the token codec -/

set_option maxRecDepth 8000

/-- C1, counterexample: a payload all of whose fields are integers is
"valid" in the claim's sense, but one whose expiry lies in the past is
rejected as expired rather than round-tripping: with exp = 0 and decode
time 1, decode returns the expired error, not the payload. -/
theorem C1_counterexample :
    verify_and_load (sign_token ⟨1, 120, 1000, 0⟩ [107]) [107] 1 = .error .expired
    ∧ verify_and_load (sign_token ⟨1, 120, 1000, 0⟩ [107]) [107] 1
        ≠ .ok (⟨1, 120, 1000, 0⟩ : Payload) := by
  have h : verify_and_load (sign_token ⟨1, 120, 1000, 0⟩ [107]) [107] 1 = .error .expired := by
    rfl
  exact ⟨h, by rw [h]; simp⟩

/-- C1, amended: for every payload with integer fields and every secret,
decoding the encoded token with the same secret returns the payload
unchanged, provided the decode happens no later than the payload's
expiry (an expired token is rejected with the expired error instead). -/
theorem C1_roundtrip_unexpired (p : Payload) (secret : List Nat) (now : Int)
    (h : now ≤ p.exp) :
    verify_and_load (sign_token p secret) secret now = .ok p := by
  rw [verify_and_load, sign_token_split]
  dsimp only
  rw [b64_decode_encode _ (jsonBytes_lt p), b64_decode_encode _ (hmac_lt _ _)]
  simp [jsonLoads_jsonBytes, show ¬(p.exp < now) from by omega]

/-- Witness for C1: a concrete unexpired round-trip. -/
theorem C1_roundtrip_unexpired_witness :
    verify_and_load (sign_token ⟨2, 120, 1000, 87400⟩ [107, 101, 121]) [107, 101, 121] 2000
      = .ok (⟨2, 120, 1000, 87400⟩ : Payload) :=
  C1_roundtrip_unexpired ⟨2, 120, 1000, 87400⟩ [107, 101, 121] 2000 (by decide)

/-- C2, counterexample: flipping bit 457 of the token of the payload
`{row 1, origin 120, t0 1000, exp 2000}` signed with secret "k" changes
a character inside the payload portion (the flip position is below
eight times the payload-half length, and the flipped token differs from
the original), yet decoding with the same secret still succeeds and
returns the original payload: the flip lands in base64 padding bits the
decoder ignores, so the tampering is not rejected at all, let alone
with a bad-signature error. -/
theorem C2_counterexample :
    457 < 8 * (b64url (jsonBytes (⟨1, 120, 1000, 2000⟩ : Payload))).length
    ∧ flipBitAt (sign_token ⟨1, 120, 1000, 2000⟩ [107]) 457
        ≠ sign_token ⟨1, 120, 1000, 2000⟩ [107]
    ∧ verify_and_load (flipBitAt (sign_token ⟨1, 120, 1000, 2000⟩ [107]) 457) [107] 0
        = .ok (⟨1, 120, 1000, 2000⟩ : Payload) := by
  refine ⟨by decide, by decide, by rfl⟩

/-- C2, amended: a single-bit flip in the payload portion is rejected
with the bad-signature error whenever the altered portion still decodes
— all its characters in the set `urlsafe_b64decode` accepts, the
base64url alphabet plus the standard-alphabet `+` and `/` — the decoded
bytes differ from the genuine payload bytes, and their digest under the
same key differs from the genuine digest (this last condition is what
HMAC-SHA256 collision resistance provides in practice; it is not
provable arithmetically).  Not every flip is detected, which is what
refutes the claim as stated: a flip confined to base64 padding bits the
decoder ignores leaves the decoded bytes unchanged and is accepted as
if untampered. -/
theorem C2_tamper_bad_signature (p : Payload) (secret : List Nat) (now : Int) (i : Nat)
    (m : List Nat)
    (hi : i < 8 * (b64url (jsonBytes p)).length)
    (hdec : b64Decode (flipBitAt (b64url (jsonBytes p)) i) = some m)
    (hne : m ≠ jsonBytes p)
    (hmac : hmacSHA256 (keyBytes secret) m ≠ hmacSHA256 (keyBytes secret) (jsonBytes p)) :
    verify_and_load (flipBitAt (sign_token p secret) i) secret now = .error .badSignature := by
  have hflip : flipBitAt (sign_token p secret) i
      = flipBitAt (b64url (jsonBytes p)) i ++
          46 :: b64url (hmacSHA256 (keyBytes secret) (jsonBytes p)) := by
    rw [sign_token]
    exact flipBitAt_append _ _ i hi
  have hsig : b64Decode (b64url (hmacSHA256 (keyBytes secret) (jsonBytes p)))
      = some (hmacSHA256 (keyBytes secret) (jsonBytes p)) := by
    rw [b64url_eq]
    exact b64_decode_encode _ (hmac_lt _ _)
  have hsplit : splitB 46 (flipBitAt (sign_token p secret) i)
      = [flipBitAt (b64url (jsonBytes p)) i,
         b64url (hmacSHA256 (keyBytes secret) (jsonBytes p))] := by
    rw [hflip]
    refine splitB_two 46 _ _ (b64Decode_no_dot hdec) ?_
    rw [b64url_eq]
    exact b64Encode_no_dot _
  rw [verify_and_load, hsplit]
  dsimp only
  rw [hdec, hsig]
  simp [hmac]

/-- Witness for C2 at two concrete flips: flipping bit 1 of the first
token changes the first payload character to another letter, and
flipping bit 278 of the second turns payload character 34 from `o` into
the standard-alphabet `/`, which the decoder also accepts.  Both flips
still decode, to payload bytes different from the genuine ones with a
different digest, and both are rejected with the bad-signature error. -/
theorem C2_tamper_bad_signature_witness :
    verify_and_load (flipBitAt (sign_token ⟨1, 120, 1000, 2000⟩ [107]) 1) [107] 0
      = .error .badSignature
    ∧ verify_and_load (flipBitAt (sign_token ⟨12, 1, 1, 1⟩ [107]) 278) [107] 0
      = .error .badSignature :=
  ⟨C2_tamper_bad_signature ⟨1, 120, 1000, 2000⟩ [107] 0 1
     ((b64Decode (flipBitAt (b64url (jsonBytes (⟨1, 120, 1000, 2000⟩ : Payload))) 1)).getD [])
     (by decide) (by rfl) (by decide) (by decide),
   C2_tamper_bad_signature ⟨12, 1, 1, 1⟩ [107] 0 278
     ((b64Decode (flipBitAt (b64url (jsonBytes (⟨12, 1, 1, 1⟩ : Payload))) 278)).getD [])
     (by decide) (by rfl) (by decide) (by decide)⟩

/-- C8: the emitted token equals the specification's wire format —
unpadded base64url of the canonical compact JSON payload, a dot, and
unpadded base64url of the HMAC-SHA256 digest keyed by the
(fallback-defaulted) secret; the token splits on its single dot into
exactly those two halves; no padding sign occurs anywhere in it; and
with an empty configured secret the token is the one signed with the
fixed development placeholder key, so encoding still succeeds and is
deterministic. -/
theorem C8_wire_format (p : Payload) (secret : List Nat) :
    sign_token p secret = wireFormat p secret
    ∧ splitB 46 (sign_token p secret) =
        [b64Encode (jsonBytes p), b64Encode (hmacSHA256 (keyBytes secret) (jsonBytes p))]
    ∧ (∀ c ∈ sign_token p secret, c ≠ 61)
    ∧ (secret = [] → sign_token p secret = sign_token p devOnly) := by
  refine ⟨?_, sign_token_split p secret, ?_, ?_⟩
  · rw [sign_token, wireFormat, b64url_eq, b64url_eq, keyBytes]
  · intro c hc
    rw [sign_token, b64url_eq, b64url_eq] at hc
    rcases List.mem_append.mp hc with hc | hc
    · exact (b64Encode_mem _ c hc).2
    · rcases List.mem_cons.mp hc with rfl | hc
      · decide
      · exact (b64Encode_mem _ c hc).2
  · intro h
    subst h
    rfl

/-- Witness for C8: the wire-format equality, the absence of padding at
a concrete character, and the empty-secret fallback, all at a concrete
payload. -/
theorem C8_wire_format_witness :
    sign_token ⟨1, 2, 3, 4⟩ [] = wireFormat ⟨1, 2, 3, 4⟩ []
    ∧ (46 : Nat) ≠ 61
    ∧ sign_token ⟨1, 2, 3, 4⟩ [] = sign_token ⟨1, 2, 3, 4⟩ devOnly :=
  ⟨(C8_wire_format ⟨1, 2, 3, 4⟩ []).1,
   (C8_wire_format ⟨1, 2, 3, 4⟩ []).2.2.1 46 (by decide),
   (C8_wire_format ⟨1, 2, 3, 4⟩ []).2.2.2 rfl⟩
